import Mathlib

/-!
Verification development for the rich-text command dispatch core of the
lexical repository (packages/lexical-react/src/shared/useRichTextSetup.js).

The built-in command listener, the editor-initialisation helpers
(shouldSelectParagraph, initParagraph, initEditor, clearEditor) and the
block resolution used by indentContent/outdentContent are embedded
directly from the source.  Operations of the selection model
(deleteCharacter, insertText, ...), which live in the lexical core
package outside the sources at hand, are modelled from the
specification; each such definition carries a doc comment saying so.
-/

namespace RichText

/-- Node variants of the document tree (spec section 3): root, element
containers (paragraph, heading, list, list item, quote, code) and the
leaf variants (text, line break). -/
inductive NodeKind where
  | rootK
  | paragraphK
  | headingK
  | listK
  | listItemK
  | quoteK
  | codeK
  | textK
  | lineBreakK
deriving DecidableEq, Repr

/-- A node of the document tree.  Element nodes carry an indent level and
a block format and own an ordered list of child keys; text nodes own a
string payload and character-format flags.  Nodes are stored in a keyed
map inside the editor state, mirroring lexical's key-addressed node map. -/
structure LNode where
  kind : NodeKind
  indent : Int := 0
  format : String := ""
  formats : List String := []
  text : String := ""
  parent : Option Nat := none
  children : List Nat := []
deriving DecidableEq, Repr

/-- A selection endpoint is tagged with the kind of reference it holds,
mirroring anchor.type in the source: a character offset into a text node
or a child offset into an element node. -/
inductive PointType where
  | element
  | text
deriving DecidableEq, Repr

/-- A selection endpoint: node key, offset and point type. -/
structure Point where
  key : Nat
  offset : Nat
  ptype : PointType
deriving DecidableEq, Repr

/-- A selection: anchor and focus endpoints. -/
structure Selection where
  anchor : Point
  focus : Point
deriving DecidableEq, Repr

/-- The editor state: the keyed node map, the current selection (null
when no selection exists) and a counter supplying keys for newly created
nodes. -/
structure EditorState where
  nodes : List (Nat × LNode)
  sel : Option Selection
  nextKey : Nat
deriving DecidableEq, Repr

/-- The payload slot of a key command: a keyboard event exposing its
shift modifier. -/
structure KeyEvent where
  shiftKey : Bool
deriving DecidableEq, Repr

/-- Command payloads, mirroring the untyped payload slot of the source:
a boolean (directional deletes, insertLineBreak), a string (insertText
and the format commands), a keyboard event (key commands), or no payload
at all (re-dispatches such as execCommand with a single argument). -/
inductive Payload where
  | pb (b : Bool)
  | ps (s : String)
  | pev (e : KeyEvent)
  | pnone
deriving DecidableEq, Repr

/-- Command types recognised by the built-in listener's switch, plus a
catch-all constructor for command strings the switch does not mention
(those fall through to the trailing return false). -/
inductive CmdType where
  | deleteCharacter
  | deleteWord
  | deleteLine
  | insertText
  | removeText
  | formatText
  | formatElement
  | insertLineBreak
  | insertParagraph
  | indentContent
  | outdentContent
  | keyArrowLeft
  | keyArrowRight
  | keyBackspace
  | keyDelete
  | keyEnter
  | keyTab
  | unrecognized (s : String)
deriving DecidableEq, Repr

/-- Outcome of one dispatch through the built-in listener: the handled
flag the listener returned, the editor state after all mutations, and
whether preventDefault was called on the payload event of this dispatch. -/
structure DispatchOut where
  handled : Bool
  state : EditorState
  prevented : Bool
deriving DecidableEq, Repr

/-- Host environment consulted during initialisation: the identity of
the document's active (focused) DOM element and of the editor's root DOM
element, both possibly null. -/
structure EditorEnv where
  activeElement : Option Nat
  rootElement : Option Nat
deriving DecidableEq, Repr

/-- JavaScript truthiness of a payload, used where the source reads the
payload in a boolean position (undefined and the empty string are falsy). -/
def Payload.toBool : Payload → Bool
  | .pb b => b
  | .ps s => s.length != 0
  | .pev _ => true
  | .pnone => false

/-- A payload read in a string position; a non-string payload is a
programming error and fails fast (modelled as an exception, none). -/
def Payload.asString : Payload → Option String
  | .ps s => some s
  | _ => none

/-- A payload read as a keyboard event; calling preventDefault on a
non-event payload throws in the source, modelled as none. -/
def Payload.asEvent : Payload → Option KeyEvent
  | .pev e => some e
  | _ => none

/-- The tab string passed by the source to execCommand at the
indentContent case. -/
def tabStr : String := "\t"

/-- The tab character compared against by the outdentContent case. -/
def tabChar : Char := '\t'

/-- Node lookup by key in the editor state's node map. -/
def getNode (st : EditorState) (k : Nat) : Option LNode :=
  st.nodes.lookup k

/-- Write a node under a key (creating or replacing the entry). -/
def writeNode (st : EditorState) (k : Nat) (n : LNode) : EditorState :=
  { st with nodes := (k, n) :: st.nodes.filter (fun p => p.1 != k) }

/-- Collapsed text selection at a given key and character offset. -/
def collapsedTextSel (k o : Nat) : Selection :=
  { anchor := { key := k, offset := o, ptype := .text },
    focus := { key := k, offset := o, ptype := .text } }

/-- Collapsed element selection at a given key and child offset. -/
def collapsedElementSel (k o : Nat) : Selection :=
  { anchor := { key := k, offset := o, ptype := .element },
    focus := { key := k, offset := o, ptype := .element } }

/-- Whether a node is an element node ($isElementNode): every variant
except the text and line-break leaves. -/
def isElementNode (n : LNode) : Bool :=
  match n.kind with
  | .textK => false
  | .lineBreakK => false
  | _ => true

/-- Modelled from the spec: a block reports that it accepts literal tab
characters exactly when it has code-block semantics (canInsertTab of the
registered node classes is true for the code node and false elsewhere). -/
def canInsertTab (n : LNode) : Bool :=
  n.kind = NodeKind.codeK

/-- Modelled from the spec: getTextContent of a node.  A text node owns
its string payload; a line break reads as a newline; an element
aggregates the text of its direct children (one level, which is all the
claims at hand exercise since the anchor of interest is a text leaf). -/
def nodeTextContentOf (st : EditorState) (n : LNode) : String :=
  match n.kind with
  | .textK => n.text
  | .lineBreakK => "\n"
  | _ =>
    String.join (n.children.map (fun c =>
      match getNode st c with
      | some m => match m.kind with
        | .textK => m.text
        | .lineBreakK => "\n"
        | _ => ""
      | none => ""))

/-- JavaScript string indexing s[i]: a character when 0 <= i < length,
and no character (undefined) otherwise — in particular at index -1. -/
def jsCharAt (s : String) (i : Int) : Option Char :=
  if i < 0 then none else s.data.get? i.toNat

/-- Modelled from the spec: selection.deleteCharacter — removes content
relative to the collapse point (one character in the given direction),
or deletes the whole range of a non-collapsed selection ignoring the
direction; a no-op when there is nothing to delete in the requested
direction.  Modelled for selections whose endpoints sit in one text
node, the shape all claims at hand exercise. -/
def deleteCharacterOp (st : EditorState) (isBackward : Bool) : EditorState :=
  match st.sel with
  | none => st
  | some sel =>
    let a := sel.anchor
    let f := sel.focus
    if a.ptype = PointType.text ∧ f.ptype = PointType.text ∧ a.key = f.key then
      match getNode st a.key with
      | none => st
      | some n =>
        if n.kind = NodeKind.textK then
          if a.offset = f.offset then
            if isBackward then
              if a.offset = 0 then st
              else
                let newText := String.mk
                  (n.text.data.take (a.offset - 1) ++ n.text.data.drop a.offset)
                { writeNode st a.key { n with text := newText } with
                    sel := some (collapsedTextSel a.key (a.offset - 1)) }
            else
              if a.offset < n.text.length then
                let newText := String.mk
                  (n.text.data.take a.offset ++ n.text.data.drop (a.offset + 1))
                { writeNode st a.key { n with text := newText } with
                    sel := some (collapsedTextSel a.key a.offset) }
              else st
          else
            let lo := min a.offset f.offset
            let hi := max a.offset f.offset
            let newText := String.mk (n.text.data.take lo ++ n.text.data.drop hi)
            { writeNode st a.key { n with text := newText } with
                sel := some (collapsedTextSel a.key lo) }
        else st
    else st

/-- Modelled from the spec: selection.insertText — replaces the current
range with the given text and collapses the selection after the inserted
text.  Modelled for selections whose endpoints sit in one text node. -/
def insertTextOp (st : EditorState) (text : String) : EditorState :=
  match st.sel with
  | none => st
  | some sel =>
    let a := sel.anchor
    let f := sel.focus
    if a.ptype = PointType.text ∧ f.ptype = PointType.text ∧ a.key = f.key then
      match getNode st a.key with
      | none => st
      | some n =>
        if n.kind = NodeKind.textK then
          let lo := min a.offset f.offset
          let hi := max a.offset f.offset
          let newText := String.mk
            (n.text.data.take lo ++ text.data ++ n.text.data.drop hi)
          { writeNode st a.key { n with text := newText } with
              sel := some (collapsedTextSel a.key (lo + text.length)) }
        else st
    else st

/-- Modelled from the spec: selection.removeText — deletes the current
range without inserting replacement content (a collapsed range deletes
nothing).  Modelled for selections whose endpoints sit in one text node. -/
def removeTextOp (st : EditorState) : EditorState :=
  insertTextOp st ""

/-- Modelled from the spec: selection.deleteWord — removes, backward,
the spaces directly before the collapse point and the word before them;
forward symmetrically.  Modelled for collapsed selections in one text
node. -/
def deleteWordOp (st : EditorState) (isBackward : Bool) : EditorState :=
  match st.sel with
  | none => st
  | some sel =>
    let a := sel.anchor
    if a.ptype = PointType.text ∧ sel.focus = a then
      match getNode st a.key with
      | none => st
      | some n =>
        if n.kind = NodeKind.textK then
          if isBackward then
            let kept := (((n.text.data.take a.offset).reverse.dropWhile
              (fun c => c = ' ')).dropWhile (fun c => c ≠ ' ')).reverse
            { writeNode st a.key
                { n with text := String.mk (kept ++ n.text.data.drop a.offset) } with
                sel := some (collapsedTextSel a.key kept.length) }
          else
            let rest := ((n.text.data.drop a.offset).dropWhile
              (fun c => c = ' ')).dropWhile (fun c => c ≠ ' ')
            { writeNode st a.key
                { n with text := String.mk (n.text.data.take a.offset ++ rest) } with
                sel := some (collapsedTextSel a.key a.offset) }
        else st
    else st

/-- Modelled from the spec: selection.deleteLine — removes the content
between the collapse point and the line boundary in the given direction.
Modelled for collapsed selections in one text node, where the node's
bounds are the line bounds. -/
def deleteLineOp (st : EditorState) (isBackward : Bool) : EditorState :=
  match st.sel with
  | none => st
  | some sel =>
    let a := sel.anchor
    if a.ptype = PointType.text ∧ sel.focus = a then
      match getNode st a.key with
      | none => st
      | some n =>
        if n.kind = NodeKind.textK then
          if isBackward then
            { writeNode st a.key { n with text := String.mk (n.text.data.drop a.offset) } with
                sel := some (collapsedTextSel a.key 0) }
          else
            { writeNode st a.key { n with text := String.mk (n.text.data.take a.offset) } with
                sel := some (collapsedTextSel a.key a.offset) }
        else st
    else st

/-- Modelled from the spec: selection.formatText — toggles a
character-level format flag across the selected range; a collapsed
selection only changes the pending format applied to the next typed
character, which this model does not track (state unchanged). -/
def formatTextOp (st : EditorState) (fmt : String) : EditorState :=
  match st.sel with
  | none => st
  | some sel =>
    let a := sel.anchor
    let f := sel.focus
    if a.ptype = PointType.text ∧ f.ptype = PointType.text ∧ a.key = f.key
        ∧ a.offset ≠ f.offset then
      match getNode st a.key with
      | none => st
      | some n =>
        if n.kind = NodeKind.textK then
          let formats' :=
            if n.formats.contains fmt then n.formats.filter (fun s => s != fmt)
            else fmt :: n.formats
          writeNode st a.key { n with formats := formats' }
        else st
    else st

/-- Modelled from the spec: selection.insertLineBreak — splits the text
at the collapse point and inserts a line-break node between the halves;
selectStart places the selection before rather than after the break.
Modelled for collapsed selections in one text node with a parent. -/
def insertLineBreakOp (st : EditorState) (selectStart : Bool) : EditorState :=
  match st.sel with
  | none => st
  | some sel =>
    let a := sel.anchor
    if a.ptype = PointType.text ∧ sel.focus = a then
      match getNode st a.key with
      | none => st
      | some n =>
        match n.parent with
        | none => st
        | some pk =>
          match getNode st pk with
          | none => st
          | some pn =>
            if n.kind = NodeKind.textK then
              let k1 := st.nextKey
              let k2 := st.nextKey + 1
              let left := n.text.data.take a.offset
              let right := n.text.data.drop a.offset
              let st1 := writeNode st a.key { n with text := String.mk left }
              let st2 := writeNode st1 k1
                { kind := NodeKind.lineBreakK, parent := some pk }
              let st3 := writeNode st2 k2
                { kind := NodeKind.textK, text := String.mk right, parent := some pk }
              let children' := (pn.children.map (fun c =>
                if c = a.key then [c, k1, k2] else [c])).flatten
              let st4 := writeNode st3 pk { pn with children := children' }
              { st4 with
                  sel := some (if selectStart then collapsedTextSel a.key left.length
                               else collapsedTextSel k2 0),
                  nextKey := st.nextKey + 2 }
            else st
    else st

/-- Modelled from the spec: selection.insertParagraph — splits the text
at the collapse point; a new paragraph inheriting the block's formatting
context receives the trailing half and is inserted as the next sibling
of the enclosing block; the selection moves to the start of the new
paragraph.  Modelled for a collapsed selection in a text node that is
the last child of its block. -/
def insertParagraphOp (st : EditorState) : EditorState :=
  match st.sel with
  | none => st
  | some sel =>
    let a := sel.anchor
    if a.ptype = PointType.text ∧ sel.focus = a then
      match getNode st a.key with
      | none => st
      | some n =>
        match n.parent with
        | none => st
        | some pk =>
          match getNode st pk with
          | none => st
          | some pn =>
            match pn.parent with
            | none => st
            | some gk =>
              match getNode st gk with
              | none => st
              | some gn =>
                if n.kind = NodeKind.textK then
                  let k1 := st.nextKey
                  let k2 := st.nextKey + 1
                  let left := n.text.data.take a.offset
                  let right := n.text.data.drop a.offset
                  let st1 := writeNode st a.key { n with text := String.mk left }
                  let st2 := writeNode st1 k2
                    { kind := NodeKind.textK, text := String.mk right, parent := some k1 }
                  let st3 := writeNode st2 k1
                    { kind := NodeKind.paragraphK, indent := pn.indent,
                      format := pn.format, parent := some gk, children := [k2] }
                  let children' := (gn.children.map (fun c =>
                    if c = pk then [c, k1] else [c])).flatten
                  let st4 := writeNode st3 gk { gn with children := children' }
                  { st4 with
                      sel := some (collapsedTextSel k2 0),
                      nextKey := st.nextKey + 2 }
                else st
    else st

/-- Modelled from the spec: the predicate deciding whether the engine
overrides default platform caret movement — true near non-text node
boundaries where native placement is ambiguous, modelled as: the
collapsed text selection sits at the node boundary in the movement
direction and the adjacent sibling is a line-break node. -/
def shouldOverrideDefaultCharacterSelection (st : EditorState) (isBackward : Bool) : Bool :=
  match st.sel with
  | none => false
  | some sel =>
    let a := sel.anchor
    if a.ptype = PointType.text ∧ sel.focus = a then
      match getNode st a.key with
      | none => false
      | some n =>
        match n.parent with
        | none => false
        | some pk =>
          match getNode st pk with
          | none => false
          | some pn =>
            match pn.children.findIdx? (fun c => c = a.key) with
            | none => false
            | some idx =>
              if isBackward then
                a.offset = 0 ∧ 0 < idx ∧
                  ((pn.children.get? (idx - 1)).bind (getNode st)).map LNode.kind
                    = some NodeKind.lineBreakK
              else
                a.offset = n.text.length ∧
                  ((pn.children.get? (idx + 1)).bind (getNode st)).map LNode.kind
                    = some NodeKind.lineBreakK
    else false

/-- Modelled from the spec: $moveCharacter — moves the caret one
character in the given direction, extending the selection instead when
shift is held.  Modelled within one text node, clamped to its bounds. -/
def moveCharacter (st : EditorState) (isHoldingShift isBackward : Bool) : EditorState :=
  match st.sel with
  | none => st
  | some sel =>
    let f := sel.focus
    if f.ptype = PointType.text then
      match getNode st f.key with
      | none => st
      | some n =>
        let newOff := if isBackward then f.offset - 1
                      else min (f.offset + 1) n.text.length
        let f' := { f with offset := newOff }
        { st with sel := some { anchor := if isHoldingShift then sel.anchor else f',
                                focus := f' } }
    else st

/-- The parent-block resolution shared by indentContent and
outdentContent in the source: the anchor's node itself when the anchor
is an element point, else the anchor node's parent (getParentOrThrow —
a missing node or parent is an exception, modelled as none). -/
def resolveParentBlock (st : EditorState) (anchor : Point) : Option (Nat × LNode) :=
  match anchor.ptype with
  | .element => (getNode st anchor.key).map (fun n => (anchor.key, n))
  | .text =>
    match getNode st anchor.key with
    | none => none
    | some n =>
      match n.parent with
      | none => none
      | some pk =>
        match getNode st pk with
        | none => none
        | some pn => some (pk, pn)

/-- The built-in command listener registered by useRichTextSetup,
embedded case by case from the source switch.  A re-dispatch through
editor.execCommand re-enters this listener (the only registered
handler) with one unit of fuel consumed; the fuel strictly dominates
the static re-dispatch depth of the source (at most two nested
dispatches, from keyTab through indentContent to insertText).  The
result none models an exception propagating out of the handler
(getParentOrThrow on an orphan node, or a malformed payload). -/
def commandListener : Nat → EditorState → CmdType → Payload → Option DispatchOut
  | 0, _, _, _ => none
  | fuel + 1, st, type, payload =>
    match st.sel with
    | none => some { handled := false, state := st, prevented := false }
    | some selection =>
      match type with
      | .deleteCharacter =>
        let isBackward := payload.toBool
        some { handled := true, state := deleteCharacterOp st isBackward, prevented := false }
      | .deleteWord =>
        let isBackward := payload.toBool
        some { handled := true, state := deleteWordOp st isBackward, prevented := false }
      | .deleteLine =>
        let isBackward := payload.toBool
        some { handled := true, state := deleteLineOp st isBackward, prevented := false }
      | .insertText =>
        match payload.asString with
        | none => none
        | some text =>
          some { handled := true, state := insertTextOp st text, prevented := false }
      | .removeText =>
        some { handled := true, state := removeTextOp st, prevented := false }
      | .formatText =>
        match payload.asString with
        | none => none
        | some format =>
          some { handled := true, state := formatTextOp st format, prevented := false }
      | .formatElement =>
        match payload.asString with
        | none => none
        | some format =>
          match getNode st selection.anchor.key with
          | none => none
          | some node =>
            if isElementNode node then
              some { handled := true,
                     state := writeNode st selection.anchor.key { node with format := format },
                     prevented := false }
            else
              match node.parent with
              | none => none
              | some pk =>
                match getNode st pk with
                | none => none
                | some pn =>
                  some { handled := true,
                         state := writeNode st pk { pn with format := format },
                         prevented := false }
      | .insertLineBreak =>
        let selectStart := payload.toBool
        some { handled := true, state := insertLineBreakOp st selectStart, prevented := false }
      | .insertParagraph =>
        some { handled := true, state := insertParagraphOp st, prevented := false }
      | .indentContent =>
        match resolveParentBlock st selection.anchor with
        | none => none
        | some (pbKey, parentBlock) =>
          if canInsertTab parentBlock then
            match commandListener fuel st CmdType.insertText (Payload.ps tabStr) with
            | none => none
            | some r => some { handled := true, state := r.state, prevented := false }
          else
            if parentBlock.indent ≠ 10 then
              some { handled := true,
                     state := writeNode st pbKey { parentBlock with indent := parentBlock.indent + 1 },
                     prevented := false }
            else
              some { handled := true, state := st, prevented := false }
      | .outdentContent =>
        match getNode st selection.anchor.key with
        | none => none
        | some anchorNode =>
          match resolveParentBlock st selection.anchor with
          | none => none
          | some (pbKey, parentBlock) =>
            if canInsertTab parentBlock then
              let textContent := nodeTextContentOf st anchorNode
              let character := jsCharAt textContent ((selection.anchor.offset : Int) - 1)
              if character = some tabChar then
                match commandListener fuel st CmdType.deleteCharacter (Payload.pb true) with
                | none => none
                | some r => some { handled := true, state := r.state, prevented := false }
              else
                some { handled := true, state := st, prevented := false }
            else
              if parentBlock.indent ≠ 0 then
                some { handled := true,
                       state := writeNode st pbKey { parentBlock with indent := parentBlock.indent - 1 },
                       prevented := false }
              else
                some { handled := true, state := st, prevented := false }
      | .keyArrowLeft =>
        match payload.asEvent with
        | none => none
        | some event =>
          if shouldOverrideDefaultCharacterSelection st true then
            some { handled := true, state := moveCharacter st event.shiftKey true,
                   prevented := true }
          else
            some { handled := false, state := st, prevented := false }
      | .keyArrowRight =>
        match payload.asEvent with
        | none => none
        | some event =>
          if shouldOverrideDefaultCharacterSelection st false then
            some { handled := true, state := moveCharacter st event.shiftKey false,
                   prevented := true }
          else
            some { handled := false, state := st, prevented := false }
      | .keyBackspace =>
        match payload.asEvent with
        | none => none
        | some _ =>
          match commandListener fuel st CmdType.deleteCharacter (Payload.pb true) with
          | none => none
          | some r => some { handled := r.handled, state := r.state, prevented := true }
      | .keyDelete =>
        match payload.asEvent with
        | none => none
        | some _ =>
          match commandListener fuel st CmdType.deleteCharacter (Payload.pb false) with
          | none => none
          | some r => some { handled := r.handled, state := r.state, prevented := true }
      | .keyEnter =>
        match payload.asEvent with
        | none => none
        | some event =>
          match commandListener fuel st
              (if event.shiftKey then CmdType.insertLineBreak else CmdType.insertParagraph)
              Payload.pnone with
          | none => none
          | some r => some { handled := r.handled, state := r.state, prevented := true }
      | .keyTab =>
        match payload.asEvent with
        | none => none
        | some event =>
          match commandListener fuel st
              (if event.shiftKey then CmdType.outdentContent else CmdType.indentContent)
              Payload.pnone with
          | none => none
          | some r => some { handled := r.handled, state := r.state, prevented := true }
      | .unrecognized _ =>
        some { handled := false, state := st, prevented := false }

/-- One dispatch through the command channel with the built-in listener
as the only registered handler.  Fuel 4 strictly dominates the static
re-dispatch depth of the source, so the fuel guard is never reached. -/
def dispatchCommand (st : EditorState) (type : CmdType) (payload : Payload) : Option DispatchOut :=
  commandListener 4 st type payload

/-- Run a sequence of command dispatches, threading the editor state;
none as soon as one dispatch raises. -/
def applySeq (st : EditorState) : List (CmdType × Payload) → Option EditorState
  | [] => some st
  | c :: cs =>
    match dispatchCommand st c.1 c.2 with
    | none => none
    | some r => applySeq r.state cs

/-- shouldSelectParagraph from the source: a selection already exists,
or the document's active element is the editor's root element (the
host surface is the focus target). -/
def shouldSelectParagraph (env : EditorEnv) (st : EditorState) : Bool :=
  st.sel.isSome ||
    (match env.activeElement with
     | none => false
     | some a => env.rootElement = some a)

/-- The node produced by $createParagraphNode. -/
def newParagraphNode : LNode :=
  { kind := NodeKind.paragraphK }

/-- Modelled from the spec: root.append — attaches a node under the
root as its last child (lexical core, outside the sources at hand). -/
def rootAppend (st : EditorState) (k : Nat) (child : LNode) : EditorState :=
  match getNode st 0 with
  | none => st
  | some root =>
    let st1 := writeNode st k { child with parent := some 0 }
    writeNode st1 0 { root with children := root.children ++ [k] }

/-- Modelled from the spec: root.clear — detaches every child of the
root (destruction detaches a node and its descendants; the model clears
the root's child list and severs the detached children's parent links). -/
def rootClear (st : EditorState) : EditorState :=
  match getNode st 0 with
  | none => st
  | some root =>
    let st1 := { st with nodes := st.nodes.map (fun p =>
      if root.children.contains p.1 then (p.1, { p.2 with parent := none }) else p) }
    writeNode st1 0 { root with children := [] }

/-- initParagraph from the source: create a paragraph node, append it
under the root, and select it (a collapsed selection inside the new
paragraph) when shouldSelectParagraph holds. -/
def initParagraph (env : EditorEnv) (st : EditorState) : EditorState :=
  let k := st.nextKey
  let st1 := rootAppend { st with nextKey := st.nextKey + 1 } k newParagraphNode
  if shouldSelectParagraph env st1 then
    { st1 with sel := some (collapsedElementSel k 0) }
  else
    st1

/-- initEditor from the source: inside one update, fetch the root
($getRoot fails if the root is absent, modelled as none) and, only when
it has no first child, run initParagraph. -/
def initEditor (env : EditorEnv) (st : EditorState) : Option EditorState :=
  match getNode st 0 with
  | none => none
  | some root =>
    match root.children.head? with
    | some _ => some st
    | none => some (initParagraph env st)

/-- clearEditor from the source: inside one update, clear the root and
run initParagraph; the transaction runner invokes the onUpdate callback
after the commit exactly when one was supplied (returned flag). -/
def clearEditor (env : EditorEnv) (st : EditorState) (hasCallback : Bool) :
    Option (EditorState × Bool) :=
  match getNode st 0 with
  | none => none
  | some _ =>
    some (initParagraph env (rootClear st), hasCallback)

/-! ## Lemmas about the node map -/

theorem lookup_filter_ne (l : List (Nat × LNode)) (k j : Nat) (h : j ≠ k) :
    (l.filter (fun p => p.1 != k)).lookup j = l.lookup j := by
  induction l with
  | nil => rfl
  | cons hd tl ih =>
    obtain ⟨a, v⟩ := hd
    by_cases hak : a = k
    · subst hak
      have hj : (j == a) = false := beq_eq_false_iff_ne.mpr h
      simp only [List.filter_cons, bne_self_eq_false, List.lookup, hj, Bool.false_eq_true,
        if_false, cond_false]
      exact ih
    · have hne : (a != k) = true := bne_iff_ne.mpr hak
      simp only [List.filter_cons, hne, if_true, List.lookup, cond_true]
      cases hja : (j == a) <;> simp [ih]

theorem getNode_writeNode (st : EditorState) (k : Nat) (n : LNode) (j : Nat) :
    getNode (writeNode st k n) j = if j = k then some n else getNode st j := by
  by_cases hjk : j = k
  · subst hjk
    simp [getNode, writeNode, List.lookup]
  · simp only [getNode, writeNode, List.lookup, beq_eq_false_iff_ne.mpr hjk,
      if_neg hjk]
    simpa using lookup_filter_ne st.nodes k j hjk

/-- A state rewrite that only changes the text of one existing node (and
possibly the selection) leaves every lookup intact up to that text
change. -/
theorem getNode_writeText (st : EditorState) (a : Nat) (n : LNode) (t : String)
    (x : Option Selection) (j : Nat) (hn : getNode st a = some n) :
    getNode { writeNode st a { n with text := t } with sel := x } j = getNode st j ∨
    ∃ m t', getNode st j = some m ∧
      getNode { writeNode st a { n with text := t } with sel := x } j
        = some { m with text := t' } := by
  by_cases hj : j = a
  · right
    refine ⟨n, t, hj ▸ hn, ?_⟩
    show getNode (writeNode st a _) j = _
    rw [getNode_writeNode, if_pos hj]
  · left
    show getNode (writeNode st a _) j = _
    rw [getNode_writeNode, if_neg hj]

/-- insertText touches at most the text of the anchor node: every key
resolves after the operation to the node it resolved to before, up to a
changed text payload. -/
theorem getNode_insertTextOp (st : EditorState) (s : String) (j : Nat) :
    getNode (insertTextOp st s) j = getNode st j ∨
    ∃ n t, getNode st j = some n ∧
      getNode (insertTextOp st s) j = some { n with text := t } := by
  unfold insertTextOp
  dsimp only
  split
  · left; rfl
  next sel _ =>
    split
    · split
      · left; rfl
      next n hn =>
        split
        · exact getNode_writeText st sel.anchor.key n _ _ j hn
        · left; rfl
    · left; rfl

/-- deleteCharacter touches at most the text of the anchor node. -/
theorem getNode_deleteCharacterOp (st : EditorState) (b : Bool) (j : Nat) :
    getNode (deleteCharacterOp st b) j = getNode st j ∨
    ∃ n t, getNode st j = some n ∧
      getNode (deleteCharacterOp st b) j = some { n with text := t } := by
  unfold deleteCharacterOp
  dsimp only
  split
  · left; rfl
  next sel _ =>
    split
    · split
      · left; rfl
      next n hn =>
        split
        · split
          · split
            · split
              · left; rfl
              · exact getNode_writeText st sel.anchor.key n _ _ j hn
            · split
              · exact getNode_writeText st sel.anchor.key n _ _ j hn
              · left; rfl
          · exact getNode_writeText st sel.anchor.key n _ _ j hn
        · left; rfl
    · left; rfl

/-! ## Example fixtures -/

/-- Root node owning one block child. -/
def exRoot : LNode := { kind := NodeKind.rootK, children := [1] }

/-- Text leaf inside block 1. -/
def exText : LNode := { kind := NodeKind.textK, text := "hi", parent := some 1 }

/-- Paragraph block with a chosen indent. -/
def exPara (i : Int) : LNode :=
  { kind := NodeKind.paragraphK, indent := i, parent := some 0, children := [2] }

/-- Document root - paragraph(indent i) - text leaf, collapsed text
selection at a chosen offset of the leaf. -/
def exParaSt (i : Int) (off : Nat) : EditorState :=
  { nodes := [(0, exRoot), (1, exPara i), (2, exText)],
    sel := some (collapsedTextSel 2 off), nextKey := 3 }

/-- Code block (accepts literal tabs). -/
def exCode : LNode := { kind := NodeKind.codeK, parent := some 0, children := [2] }

/-- Text leaf of the code block, starting with a tab. -/
def exCodeText : LNode := { kind := NodeKind.textK, text := "\ta", parent := some 1 }

/-- Document root - code block - text leaf, collapsed text selection at
a chosen offset. -/
def exCodeSt (off : Nat) : EditorState :=
  { nodes := [(0, exRoot), (1, exCode), (2, exCodeText)],
    sel := some (collapsedTextSel 2 off), nextKey := 3 }

/-- A state with a root only and a null selection. -/
def exNullSt : EditorState :=
  { nodes := [(0, exRoot)], sel := none, nextKey := 1 }

/-! ## Claim C3 -/

/-- Claim C3: for every command type and every payload, the built-in
listener with a null current selection returns unhandled (false),
mutates nothing, and consumes no event; no command is exempt. -/
theorem nullSelection_unhandled_noMutation (st : EditorState) (c : CmdType) (p : Payload)
    (h : st.sel = none) :
    dispatchCommand st c p = some { handled := false, state := st, prevented := false } := by
  show commandListener (3 + 1) st c p = _
  simp only [commandListener, h]

/-- Witness for claim C3 at a concrete state with no selection. -/
theorem nullSelection_unhandled_noMutation_witness :
    exNullSt.sel = none ∧
    dispatchCommand exNullSt CmdType.insertText (Payload.ps tabStr) =
      some { handled := false, state := exNullSt, prevented := false } :=
  ⟨rfl, nullSelection_unhandled_noMutation exNullSt CmdType.insertText (Payload.ps tabStr) rfl⟩

/-! ## Claim C1: indent bounds invariant -/

theorem indent_preserved_insertTextOp (st : EditorState) (s : String) (k : Nat) (n : LNode)
    (hk : getNode st k = some n) :
    ∃ n', getNode (insertTextOp st s) k = some n' ∧ n'.indent = n.indent := by
  rcases getNode_insertTextOp st s k with h | ⟨m, t, hm, h⟩
  · exact ⟨n, by rw [h, hk], rfl⟩
  · have hmn : m = n := Option.some.inj (hm ▸ hk)
    subst hmn
    exact ⟨{ m with text := t }, h, rfl⟩

theorem indent_preserved_deleteCharacterOp (st : EditorState) (b : Bool) (k : Nat) (n : LNode)
    (hk : getNode st k = some n) :
    ∃ n', getNode (deleteCharacterOp st b) k = some n' ∧ n'.indent = n.indent := by
  rcases getNode_deleteCharacterOp st b k with h | ⟨m, t, hm, h⟩
  · exact ⟨n, by rw [h, hk], rfl⟩
  · have hmn : m = n := Option.some.inj (hm ▸ hk)
    subst hmn
    exact ⟨{ m with text := t }, h, rfl⟩

/-- A successful insertText dispatch at any positive fuel applies
insertTextOp, reports handled and consumes nothing. -/
theorem commandListener_insertText (fuel : Nat) (st : EditorState) (sel : Selection)
    (hsel : st.sel = some sel) (s : String) (r : DispatchOut)
    (h : commandListener fuel st CmdType.insertText (Payload.ps s) = some r) :
    r = { handled := true, state := insertTextOp st s, prevented := false } := by
  cases fuel with
  | zero => exact absurd h (by simp [commandListener])
  | succ fuel =>
    simp only [commandListener, hsel, Payload.asString] at h
    exact (Option.some.inj h).symm

/-- A successful deleteCharacter dispatch with a boolean payload at any
positive fuel applies deleteCharacterOp with that direction. -/
theorem commandListener_deleteCharacter (fuel : Nat) (st : EditorState) (sel : Selection)
    (hsel : st.sel = some sel) (b : Bool) (r : DispatchOut)
    (h : commandListener fuel st CmdType.deleteCharacter (Payload.pb b) = some r) :
    r = { handled := true, state := deleteCharacterOp st b, prevented := false } := by
  cases fuel with
  | zero => exact absurd h (by simp [commandListener])
  | succ fuel =>
    simp only [commandListener, hsel, Payload.toBool] at h
    exact (Option.some.inj h).symm

/-- The block resolved by indentContent and outdentContent is looked up
in the state under the returned key. -/
theorem resolveParentBlock_lookup (st : EditorState) (a : Point) (pk : Nat) (pb : LNode)
    (h : resolveParentBlock st a = some (pk, pb)) : getNode st pk = some pb := by
  unfold resolveParentBlock at h
  split at h
  · cases hg : getNode st a.key with
    | none => rw [hg] at h; simp at h
    | some n =>
      rw [hg, Option.map_some'] at h
      injection h with h'
      injection h' with h1 h2
      rw [← h1, hg, h2]
  · split at h
    · exact absurd h (by simp)
    · split at h
      · exact absurd h (by simp)
      next pk0 _ =>
        split at h
        · exact absurd h (by simp)
        next pn hpn =>
          injection h with h'
          injection h' with h1 h2
          rw [← h1, hpn, h2]

/-- One indentContent dispatch preserves the indent bounds of every
node: the tab branch only inserts text, the other branch increments
only below the ceiling. -/
theorem indentContent_preserves_bounds (fuel : Nat) (st : EditorState) (p : Payload)
    (r : DispatchOut) (h : commandListener (fuel + 1) st CmdType.indentContent p = some r)
    (k : Nat) (n : LNode) (hk : getNode st k = some n)
    (h0 : 0 ≤ n.indent) (h1 : n.indent ≤ 10) :
    ∃ n', getNode r.state k = some n' ∧ 0 ≤ n'.indent ∧ n'.indent ≤ 10 := by
  simp only [commandListener] at h
  split at h
  · cases h; exact ⟨n, hk, h0, h1⟩
  next sel hsel =>
    split at h
    · exact absurd h (by simp)
    next pbKey pb hres =>
      split at h
      · split at h
        · exact absurd h (by simp)
        next r0 hr0 =>
          cases h
          obtain rfl := commandListener_insertText fuel st sel hsel tabStr r0 hr0
          obtain ⟨n', hn', hind⟩ := indent_preserved_insertTextOp st tabStr k n hk
          exact ⟨n', hn', hind ▸ h0, hind ▸ h1⟩
      · split at h
        next hne =>
          cases h
          have hpb : getNode st pbKey = some pb := resolveParentBlock_lookup st sel.anchor pbKey pb hres
          by_cases hkpb : k = pbKey
          · subst hkpb
            have : pb = n := Option.some.inj (hpb ▸ hk)
            subst this
            refine ⟨{ pb with indent := pb.indent + 1 }, ?_, by dsimp; omega, by dsimp; omega⟩
            show getNode (writeNode st k _) k = _
            rw [getNode_writeNode, if_pos rfl]
          · refine ⟨n, ?_, h0, h1⟩
            show getNode (writeNode st pbKey _) k = _
            rw [getNode_writeNode, if_neg hkpb]
            exact hk
        · cases h; exact ⟨n, hk, h0, h1⟩

/-- One outdentContent dispatch preserves the indent bounds of every
node: the tab branch at most deletes a character, the other branch
decrements only above the floor. -/
theorem outdentContent_preserves_bounds (fuel : Nat) (st : EditorState) (p : Payload)
    (r : DispatchOut) (h : commandListener (fuel + 1) st CmdType.outdentContent p = some r)
    (k : Nat) (n : LNode) (hk : getNode st k = some n)
    (h0 : 0 ≤ n.indent) (h1 : n.indent ≤ 10) :
    ∃ n', getNode r.state k = some n' ∧ 0 ≤ n'.indent ∧ n'.indent ≤ 10 := by
  simp only [commandListener] at h
  split at h
  · cases h; exact ⟨n, hk, h0, h1⟩
  next sel hsel =>
    split at h
    · exact absurd h (by simp)
    next anchorNode hanchor =>
      split at h
      · exact absurd h (by simp)
      next pbKey pb hres =>
        split at h
        · split at h
          · split at h
            · exact absurd h (by simp)
            next r0 hr0 =>
              cases h
              obtain rfl := commandListener_deleteCharacter fuel st sel hsel true r0 hr0
              obtain ⟨n', hn', hind⟩ := indent_preserved_deleteCharacterOp st true k n hk
              exact ⟨n', hn', hind ▸ h0, hind ▸ h1⟩
          · cases h; exact ⟨n, hk, h0, h1⟩
        · split at h
          next hne =>
            cases h
            have hpb : getNode st pbKey = some pb := resolveParentBlock_lookup st sel.anchor pbKey pb hres
            by_cases hkpb : k = pbKey
            · subst hkpb
              have : pb = n := Option.some.inj (hpb ▸ hk)
              subst this
              refine ⟨{ pb with indent := pb.indent - 1 }, ?_, by dsimp; omega, by dsimp; omega⟩
              show getNode (writeNode st k _) k = _
              rw [getNode_writeNode, if_pos rfl]
            · refine ⟨n, ?_, h0, h1⟩
              show getNode (writeNode st pbKey _) k = _
              rw [getNode_writeNode, if_neg hkpb]
              exact hk
          · cases h; exact ⟨n, hk, h0, h1⟩

/-- One dispatch of either indent command preserves the indent bounds. -/
theorem indentOutdent_step (st : EditorState) (c : CmdType) (p : Payload)
    (hc : c = CmdType.indentContent ∨ c = CmdType.outdentContent)
    (r : DispatchOut) (h : dispatchCommand st c p = some r)
    (k : Nat) (n : LNode) (hk : getNode st k = some n)
    (h0 : 0 ≤ n.indent) (h1 : n.indent ≤ 10) :
    ∃ n', getNode r.state k = some n' ∧ 0 ≤ n'.indent ∧ n'.indent ≤ 10 := by
  rcases hc with rfl | rfl
  · exact indentContent_preserves_bounds 3 st p r h k n hk h0 h1
  · exact outdentContent_preserves_bounds 3 st p r h k n hk h0 h1

/-- Claim C1: for every element node whose indent starts in the range
0..10, after any sequence of indentContent and outdentContent command
dispatches through the built-in handler the node still resolves and its
indent is an integer in 0..10 (indentContent increments only below 10,
outdentContent decrements only above 0, and the tab branches never touch
indent). -/
theorem indent_bounds_invariant (cs : List (CmdType × Payload))
    (hcs : ∀ c ∈ cs, c.1 = CmdType.indentContent ∨ c.1 = CmdType.outdentContent)
    (st st' : EditorState) (h : applySeq st cs = some st')
    (k : Nat) (n : LNode) (hk : getNode st k = some n)
    (h0 : 0 ≤ n.indent) (h1 : n.indent ≤ 10) :
    ∃ n', getNode st' k = some n' ∧ 0 ≤ n'.indent ∧ n'.indent ≤ 10 := by
  induction cs generalizing st n with
  | nil =>
    simp only [applySeq] at h
    cases h
    exact ⟨n, hk, h0, h1⟩
  | cons c cs ih =>
    simp only [applySeq] at h
    split at h
    · exact absurd h (by simp)
    next r hr =>
      obtain ⟨n', hn', h0', h1'⟩ :=
        indentOutdent_step st c.1 c.2 (hcs c (List.mem_cons_self c cs)) r hr k n hk h0 h1
      exact ih (fun d hd => hcs d (List.mem_cons_of_mem _ hd)) r.state h n' hn' h0' h1'

/-- Commands for the C1 witness: two indents and an outdent. -/
def c1Cmds : List (CmdType × Payload) :=
  [(CmdType.indentContent, Payload.pnone), (CmdType.indentContent, Payload.pnone),
   (CmdType.outdentContent, Payload.pnone)]

/-- Final state of the C1 witness run. -/
def c1Final : EditorState := (applySeq (exParaSt 0 0) c1Cmds).getD (exParaSt 0 0)

/-- Witness for claim C1 at a concrete document and command sequence. -/
theorem indent_bounds_invariant_witness :
    ∃ n', getNode c1Final 1 = some n' ∧ 0 ≤ n'.indent ∧ n'.indent ≤ 10 :=
  indent_bounds_invariant c1Cmds (by decide) (exParaSt 0 0) c1Final (by decide)
    1 (exPara 0) (by decide) (by decide) (by decide)

/-! ## Claim C2: indent/outdent round trip -/

/-- A resolvable parent block implies the anchor node itself resolves. -/
theorem resolveParentBlock_anchor_exists (st : EditorState) (a : Point) (pk : Nat) (pb : LNode)
    (h : resolveParentBlock st a = some (pk, pb)) : ∃ an, getNode st a.key = some an := by
  unfold resolveParentBlock at h
  split at h
  · cases hg : getNode st a.key with
    | none => rw [hg] at h; simp at h
    | some n => exact ⟨n, rfl⟩
  · split at h
    · exact absurd h (by simp)
    next n hn => exact ⟨n, hn⟩

/-- Rewriting the resolved parent block in place (without changing its
parent link) leaves the block resolution pointing at the rewritten
block. -/
theorem resolveParentBlock_writeNode_self (st : EditorState) (a : Point) (pk : Nat)
    (pb pb' : LNode) (hres : resolveParentBlock st a = some (pk, pb))
    (hpar : pb'.parent = pb.parent) :
    resolveParentBlock (writeNode st pk pb') a = some (pk, pb') := by
  obtain ⟨ak, ao, apt⟩ := a
  cases apt with
  | element =>
    simp only [resolveParentBlock] at hres ⊢
    cases hg : getNode st ak with
    | none => rw [hg] at hres; simp at hres
    | some n =>
      rw [hg, Option.map_some'] at hres
      injection hres with hres'
      injection hres' with h1 h2
      rw [getNode_writeNode, if_pos h1, Option.map_some', h1]
  | text =>
    simp only [resolveParentBlock] at hres ⊢
    split at hres
    · exact absurd hres (by simp)
    next n hn =>
      split at hres
      · exact absurd hres (by simp)
      next pk0 hp =>
        split at hres
        · exact absurd hres (by simp)
        next pn hq =>
          injection hres with hres'
          injection hres' with h1 h2
          by_cases hak : ak = pk
          · have hnpb : n = pb := by
              have hq' : getNode st ak = some pn := by rw [hak, ← h1]; exact hq
              rw [hn] at hq'
              exact (Option.some.inj hq').trans h2
            rw [getNode_writeNode, if_pos hak]
            dsimp only
            have hpp : pb'.parent = some pk := by rw [hpar, ← hnpb, hp, h1]
            rw [hpp]
            dsimp only
            rw [getNode_writeNode, if_pos rfl]
          · rw [getNode_writeNode, if_neg hak, hn]
            dsimp only
            rw [hp]
            dsimp only
            rw [h1, getNode_writeNode, if_pos rfl]

/-- Claim C2 (counterexample to the claim as stated): with the parent
block at the upper clamp boundary (indent 10) and not accepting tabs,
dispatching indentContent then outdentContent ends with indent 9, not
at the original value 10 the claim asserts for that boundary. -/
theorem indent_outdent_roundtrip_cex :
    (getNode (exParaSt 10 0) 1).map LNode.indent = some 10 ∧
    (getNode (exParaSt 10 0) 1).map canInsertTab = some false ∧
    ((dispatchCommand (exParaSt 10 0) CmdType.indentContent Payload.pnone).bind (fun r1 =>
      dispatchCommand r1.state CmdType.outdentContent Payload.pnone)).map
        (fun r2 => (getNode r2.state 1).map LNode.indent) = some (some 9) := by
  decide

/-- Claim C2 (amended): dispatching indentContent then outdentContent
on a block that does not accept tabs returns the indent to its original
value n for every n in 0..9 — including the lower clamp boundary 0,
where the increment succeeds and is undone — while at the upper clamp
boundary n = 10 the indentContent dispatch is a no-op but the
outdentContent dispatch still decrements, so the pair ends at 9. -/
theorem indent_outdent_roundtrip (st : EditorState) (sel : Selection) (pbKey : Nat) (pb : LNode)
    (p1 p2 : Payload)
    (hsel : st.sel = some sel)
    (hres : resolveParentBlock st sel.anchor = some (pbKey, pb))
    (htab : canInsertTab pb = false)
    (h0 : 0 ≤ pb.indent) (h1 : pb.indent ≤ 10) :
    ∃ r1 r2 pb',
      dispatchCommand st CmdType.indentContent p1 = some r1 ∧
      dispatchCommand r1.state CmdType.outdentContent p2 = some r2 ∧
      getNode r2.state pbKey = some pb' ∧
      pb'.indent = (if pb.indent = 10 then 9 else pb.indent) := by
  obtain ⟨an, hanchor⟩ := resolveParentBlock_anchor_exists st sel.anchor pbKey pb hres
  by_cases h10 : pb.indent = 10
  · have e1 : dispatchCommand st CmdType.indentContent p1 =
        some { handled := true, state := st, prevented := false } := by
      show commandListener (3 + 1) st CmdType.indentContent p1 = _
      simp only [commandListener, hsel, hres, htab]
      rw [h10]
      simp
    have e2 : dispatchCommand st CmdType.outdentContent p2 =
        some { handled := true,
               state := writeNode st pbKey { pb with indent := pb.indent - 1 },
               prevented := false } := by
      show commandListener (3 + 1) st CmdType.outdentContent p2 = _
      simp only [commandListener, hsel, hanchor, hres, htab]
      rw [if_pos (show pb.indent ≠ 0 by omega)]
      simp
    refine ⟨_, _, { pb with indent := pb.indent - 1 }, e1, e2, ?_, ?_⟩
    · rw [getNode_writeNode, if_pos rfl]
    · dsimp
      rw [if_pos h10, h10]
      norm_num
  · have e1 : dispatchCommand st CmdType.indentContent p1 =
        some { handled := true,
               state := writeNode st pbKey { pb with indent := pb.indent + 1 },
               prevented := false } := by
      show commandListener (3 + 1) st CmdType.indentContent p1 = _
      simp only [commandListener, hsel, hres, htab]
      rw [if_pos h10]
      simp
    have hres1 : resolveParentBlock (writeNode st pbKey { pb with indent := pb.indent + 1 })
        sel.anchor = some (pbKey, { pb with indent := pb.indent + 1 }) :=
      resolveParentBlock_writeNode_self st sel.anchor pbKey pb _ hres rfl
    obtain ⟨an1, hanchor1⟩ := resolveParentBlock_anchor_exists _ sel.anchor pbKey _ hres1
    have e2 : dispatchCommand (writeNode st pbKey { pb with indent := pb.indent + 1 })
        CmdType.outdentContent p2 =
        some { handled := true,
               state := writeNode (writeNode st pbKey { pb with indent := pb.indent + 1 })
                 pbKey { pb with indent := pb.indent + 1 - 1 },
               prevented := false } := by
      have htab1 : canInsertTab { pb with indent := pb.indent + 1 } = false := htab
      show commandListener (3 + 1) _ CmdType.outdentContent p2 = _
      simp only [commandListener]
      rw [show (writeNode st pbKey { pb with indent := pb.indent + 1 }).sel = some sel from hsel]
      simp only [hanchor1, hres1, htab1]
      rw [if_pos (show ({ pb with indent := pb.indent + 1 } : LNode).indent ≠ 0 by dsimp; omega)]
      simp
    refine ⟨_, _, { pb with indent := pb.indent + 1 - 1 }, e1, e2, ?_, ?_⟩
    · rw [getNode_writeNode, if_pos rfl]
    · dsimp
      rw [if_neg h10]
      omega

/-- Witness for the amended claim C2 at the upper clamp boundary. -/
theorem indent_outdent_roundtrip_witness :
    ∃ r1 r2 pb',
      dispatchCommand (exParaSt 10 0) CmdType.indentContent Payload.pnone = some r1 ∧
      dispatchCommand r1.state CmdType.outdentContent Payload.pnone = some r2 ∧
      getNode r2.state 1 = some pb' ∧
      pb'.indent = (if (exPara 10).indent = 10 then 9 else (exPara 10).indent) :=
  indent_outdent_roundtrip (exParaSt 10 0) (collapsedTextSel 2 0) 1 (exPara 10)
    Payload.pnone Payload.pnone rfl (by decide) (by decide) (by decide) (by decide)

/-! ## Claims C4, C5, C10: tab-accepting blocks -/

/-- Claim C4: when indentContent is dispatched — directly or through
keyTab without shift — and the resolved parent block accepts literal
tab characters, the handler re-dispatches insertText with a single tab
character instead of changing any indent level, the keyTab event is
consumed, the command reports handled, and every node's indent is left
unchanged. -/
theorem indentContent_tab_block (st : EditorState) (sel : Selection) (pbKey : Nat) (pb : LNode)
    (p : Payload) (ev : KeyEvent)
    (hsel : st.sel = some sel)
    (hres : resolveParentBlock st sel.anchor = some (pbKey, pb))
    (htab : canInsertTab pb = true)
    (hshift : ev.shiftKey = false) :
    dispatchCommand st CmdType.insertText (Payload.ps tabStr) =
      some { handled := true, state := insertTextOp st tabStr, prevented := false } ∧
    dispatchCommand st CmdType.indentContent p =
      some { handled := true, state := insertTextOp st tabStr, prevented := false } ∧
    dispatchCommand st CmdType.keyTab (Payload.pev ev) =
      some { handled := true, state := insertTextOp st tabStr, prevented := true } ∧
    (∀ j m, getNode st j = some m →
      ∃ m', getNode (insertTextOp st tabStr) j = some m' ∧ m'.indent = m.indent) := by
  refine ⟨?_, ?_, ?_, ?_⟩
  · show commandListener (3 + 1) st CmdType.insertText (Payload.ps tabStr) = _
    simp only [commandListener, hsel, Payload.asString]
  · show commandListener (3 + 1) st CmdType.indentContent p = _
    simp only [commandListener, hsel, hres, htab, Payload.asString, if_true]
  · show commandListener (3 + 1) st CmdType.keyTab (Payload.pev ev) = _
    simp only [commandListener, hsel, hres, htab, hshift, Payload.asEvent, Payload.asString,
      Bool.false_eq_true, if_false, if_true]
  · intro j m hm
    exact indent_preserved_insertTextOp st tabStr j m hm

/-- Witness for claim C4: a collapsed selection at offset 0 of the text
leaf of a code block, keyTab dispatched without shift. -/
theorem indentContent_tab_block_witness :
    dispatchCommand (exCodeSt 0) CmdType.insertText (Payload.ps tabStr) =
      some { handled := true, state := insertTextOp (exCodeSt 0) tabStr, prevented := false } ∧
    dispatchCommand (exCodeSt 0) CmdType.indentContent Payload.pnone =
      some { handled := true, state := insertTextOp (exCodeSt 0) tabStr, prevented := false } ∧
    dispatchCommand (exCodeSt 0) CmdType.keyTab (Payload.pev { shiftKey := false }) =
      some { handled := true, state := insertTextOp (exCodeSt 0) tabStr, prevented := true } ∧
    (∀ j m, getNode (exCodeSt 0) j = some m →
      ∃ m', getNode (insertTextOp (exCodeSt 0) tabStr) j = some m' ∧ m'.indent = m.indent) :=
  indentContent_tab_block (exCodeSt 0) (collapsedTextSel 2 0) 1 exCode
    Payload.pnone { shiftKey := false } rfl (by decide) (by decide) rfl

/-- Claim C5: outdentContent in a tab-accepting block inspects the
character directly before the anchor offset in the anchor node's text
content and re-dispatches deleteCharacter backward exactly when that
character is a tab (no-op otherwise); in a non-tab block the block's
indent is decremented by one, clamped at 0; the command reports handled
in every case. -/
theorem outdentContent_spec (st : EditorState) (sel : Selection) (pbKey : Nat) (pb an : LNode)
    (p : Payload)
    (hsel : st.sel = some sel)
    (hanchor : getNode st sel.anchor.key = some an)
    (hres : resolveParentBlock st sel.anchor = some (pbKey, pb)) :
    (canInsertTab pb = true →
      dispatchCommand st CmdType.outdentContent p =
        some (if jsCharAt (nodeTextContentOf st an) ((sel.anchor.offset : Int) - 1) = some tabChar
              then { handled := true, state := deleteCharacterOp st true, prevented := false }
              else { handled := true, state := st, prevented := false })) ∧
    (canInsertTab pb = false → 0 ≤ pb.indent →
      ∃ st', dispatchCommand st CmdType.outdentContent p =
          some { handled := true, state := st', prevented := false } ∧
        (getNode st' pbKey).map LNode.indent = some (max (pb.indent - 1) 0)) := by
  constructor
  · intro htab
    show commandListener (3 + 1) st CmdType.outdentContent p = _
    simp only [commandListener, hsel, hanchor, hres, htab, Payload.toBool, if_true]
    by_cases hch : jsCharAt (nodeTextContentOf st an) ((sel.anchor.offset : Int) - 1) = some tabChar
    · rw [if_pos hch, if_pos hch]
    · rw [if_neg hch, if_neg hch]
  · intro htab h0
    by_cases hz : pb.indent = 0
    · refine ⟨st, ?_, ?_⟩
      · show commandListener (3 + 1) st CmdType.outdentContent p = _
        simp only [commandListener, hsel, hanchor, hres, htab, Bool.false_eq_true, if_false]
        rw [if_neg (show ¬pb.indent ≠ 0 by omega)]
      · rw [resolveParentBlock_lookup st sel.anchor pbKey pb hres, Option.map_some']
        rw [hz]
        norm_num
    · refine ⟨writeNode st pbKey { pb with indent := pb.indent - 1 }, ?_, ?_⟩
      · show commandListener (3 + 1) st CmdType.outdentContent p = _
        simp only [commandListener, hsel, hanchor, hres, htab, Bool.false_eq_true, if_false]
        rw [if_pos hz]
      · rw [getNode_writeNode, if_pos rfl, Option.map_some']
        dsimp
        rw [max_eq_left (show (0 : Int) ≤ pb.indent - 1 by omega)]

/-- Witness for claim C5: the code-block document with the anchor right
after the leading tab (tab branch), plus the non-tab paragraph document
at indent 5 (decrement branch). -/
theorem outdentContent_spec_witness :
    ((canInsertTab exCode = true →
      dispatchCommand (exCodeSt 1) CmdType.outdentContent Payload.pnone =
        some (if jsCharAt (nodeTextContentOf (exCodeSt 1) exCodeText)
                  (((collapsedTextSel 2 1).anchor.offset : Int) - 1) = some tabChar
              then { handled := true, state := deleteCharacterOp (exCodeSt 1) true,
                     prevented := false }
              else { handled := true, state := exCodeSt 1, prevented := false })) ∧
    (canInsertTab exCode = false → 0 ≤ exCode.indent →
      ∃ st', dispatchCommand (exCodeSt 1) CmdType.outdentContent Payload.pnone =
          some { handled := true, state := st', prevented := false } ∧
        (getNode st' 1).map LNode.indent = some (max (exCode.indent - 1) 0))) :=
  outdentContent_spec (exCodeSt 1) (collapsedTextSel 2 1) 1 exCode exCodeText
    Payload.pnone rfl (by decide) (by decide)

/-- Claim C10: outdentContent in a tab-accepting block with the anchor
at offset 0 looks up index -1 of the text content, which yields no
character; that is not a tab, so no deleteCharacter re-dispatch happens,
nothing is mutated, the command still reports handled, and the
out-of-range index never faults. -/
theorem outdentContent_offset_zero (st : EditorState) (sel : Selection) (pbKey : Nat)
    (pb an : LNode) (p : Payload)
    (hsel : st.sel = some sel)
    (hanchor : getNode st sel.anchor.key = some an)
    (hres : resolveParentBlock st sel.anchor = some (pbKey, pb))
    (htab : canInsertTab pb = true)
    (hoff : sel.anchor.offset = 0) :
    jsCharAt (nodeTextContentOf st an) ((sel.anchor.offset : Int) - 1) = none ∧
    dispatchCommand st CmdType.outdentContent p =
      some { handled := true, state := st, prevented := false } := by
  have hchar : jsCharAt (nodeTextContentOf st an) ((sel.anchor.offset : Int) - 1) = none := by
    rw [hoff]
    simp [jsCharAt]
  refine ⟨hchar, ?_⟩
  show commandListener (3 + 1) st CmdType.outdentContent p = _
  simp only [commandListener, hsel, hanchor, hres, htab, hchar, if_true]
  simp

/-- Witness for claim C10: the code-block document with the anchor at
offset 0. -/
theorem outdentContent_offset_zero_witness :
    jsCharAt (nodeTextContentOf (exCodeSt 0) exCodeText)
        (((collapsedTextSel 2 0).anchor.offset : Int) - 1) = none ∧
    dispatchCommand (exCodeSt 0) CmdType.outdentContent Payload.pnone =
      some { handled := true, state := exCodeSt 0, prevented := false } :=
  outdentContent_offset_zero (exCodeSt 0) (collapsedTextSel 2 0) 1 exCode exCodeText
    Payload.pnone rfl (by decide) (by decide) (by decide) rfl

/-! ## Claims C6 and C7: key commands re-dispatching -/

/-- A document whose caret sits at the very start: root - paragraph -
empty text leaf, collapsed selection at offset 0. -/
def docStartSt : EditorState :=
  { nodes := [(0, exRoot), (1, exPara 0),
              (2, { kind := NodeKind.textK, text := "", parent := some 1 })],
    sel := some (collapsedTextSel 2 0), nextKey := 3 }

/-- Claim C6: keyEnter with a non-null selection always consumes the
originating event — whatever the re-dispatched command returns — and
re-dispatches insertLineBreak when shift is held and insertParagraph
otherwise, returning the re-dispatched command's result. -/
theorem keyEnter_spec (st : EditorState) (sel : Selection) (ev : KeyEvent)
    (hsel : st.sel = some sel) :
    dispatchCommand st CmdType.keyEnter (Payload.pev ev) =
      (dispatchCommand st
          (if ev.shiftKey then CmdType.insertLineBreak else CmdType.insertParagraph)
          Payload.pnone).map
        (fun r => { handled := r.handled, state := r.state, prevented := true }) ∧
    dispatchCommand st CmdType.keyEnter (Payload.pev ev) =
      some { handled := true,
             state := if ev.shiftKey then insertLineBreakOp st false else insertParagraphOp st,
             prevented := true } := by
  cases hs : ev.shiftKey <;>
    exact ⟨by simp only [dispatchCommand, commandListener, hsel, Payload.asEvent,
             Payload.toBool, hs, Bool.false_eq_true, if_false, if_true, Option.map_some'],
           by simp only [dispatchCommand, commandListener, hsel, Payload.asEvent,
             Payload.toBool, hs, Bool.false_eq_true, if_false, if_true]⟩

/-- Witness for claim C6 at the start-of-document fixture without
shift. -/
theorem keyEnter_spec_witness :
    (dispatchCommand docStartSt CmdType.keyEnter (Payload.pev { shiftKey := false }) =
      (dispatchCommand docStartSt
          (if ({ shiftKey := false } : KeyEvent).shiftKey then CmdType.insertLineBreak
           else CmdType.insertParagraph)
          Payload.pnone).map
        (fun r => { handled := r.handled, state := r.state, prevented := true })) ∧
    dispatchCommand docStartSt CmdType.keyEnter (Payload.pev { shiftKey := false }) =
      some { handled := true,
             state := if ({ shiftKey := false } : KeyEvent).shiftKey
                      then insertLineBreakOp docStartSt false
                      else insertParagraphOp docStartSt,
             prevented := true } :=
  keyEnter_spec docStartSt (collapsedTextSel 2 0) { shiftKey := false } rfl

/-- Claim C7: keyBackspace and keyDelete with a non-null selection
always consume the originating event, re-dispatch deleteCharacter with
backward true resp. false, and return exactly the re-dispatched
command's handled result; at the start of the document the dispatch
still reports handled with no visible mutation. -/
theorem keyBackspaceDelete_spec (st : EditorState) (sel : Selection) (ev : KeyEvent)
    (hsel : st.sel = some sel) :
    (dispatchCommand st CmdType.keyBackspace (Payload.pev ev) =
      (dispatchCommand st CmdType.deleteCharacter (Payload.pb true)).map
        (fun r => { handled := r.handled, state := r.state, prevented := true })) ∧
    dispatchCommand st CmdType.keyBackspace (Payload.pev ev) =
      some { handled := true, state := deleteCharacterOp st true, prevented := true } ∧
    (dispatchCommand st CmdType.keyDelete (Payload.pev ev) =
      (dispatchCommand st CmdType.deleteCharacter (Payload.pb false)).map
        (fun r => { handled := r.handled, state := r.state, prevented := true })) ∧
    dispatchCommand st CmdType.keyDelete (Payload.pev ev) =
      some { handled := true, state := deleteCharacterOp st false, prevented := true } ∧
    dispatchCommand docStartSt CmdType.keyBackspace (Payload.pev ev) =
      some { handled := true, state := docStartSt, prevented := true } := by
  refine ⟨?_, ?_, ?_, ?_, ?_⟩ <;>
    simp only [dispatchCommand, commandListener, hsel, Payload.asEvent, Payload.toBool,
      Option.map_some', show docStartSt.sel = some (collapsedTextSel 2 0) from rfl]
  show _ = some { handled := true, state := docStartSt, prevented := true }
  rfl

/-- Witness for claim C7 at the start-of-document fixture. -/
theorem keyBackspaceDelete_spec_witness :
    (dispatchCommand docStartSt CmdType.keyBackspace (Payload.pev { shiftKey := false }) =
      (dispatchCommand docStartSt CmdType.deleteCharacter (Payload.pb true)).map
        (fun r => { handled := r.handled, state := r.state, prevented := true })) ∧
    dispatchCommand docStartSt CmdType.keyBackspace (Payload.pev { shiftKey := false }) =
      some { handled := true, state := deleteCharacterOp docStartSt true, prevented := true } ∧
    (dispatchCommand docStartSt CmdType.keyDelete (Payload.pev { shiftKey := false }) =
      (dispatchCommand docStartSt CmdType.deleteCharacter (Payload.pb false)).map
        (fun r => { handled := r.handled, state := r.state, prevented := true })) ∧
    dispatchCommand docStartSt CmdType.keyDelete (Payload.pev { shiftKey := false }) =
      some { handled := true, state := deleteCharacterOp docStartSt false, prevented := true } ∧
    dispatchCommand docStartSt CmdType.keyBackspace (Payload.pev { shiftKey := false }) =
      some { handled := true, state := docStartSt, prevented := true } :=
  keyBackspaceDelete_spec docStartSt (collapsedTextSel 2 0) { shiftKey := false } rfl

/-! ## Claims C8 and C9: initialisation and clearing -/

theorem getNode_setSel (st : EditorState) (x : Option Selection) (j : Nat) :
    getNode { st with sel := x } j = getNode st j := rfl

theorem rootAppend_sel (st : EditorState) (k : Nat) (n : LNode) :
    (rootAppend st k n).sel = st.sel := by
  unfold rootAppend
  split <;> rfl

theorem rootAppend_nodes (st : EditorState) (k : Nat) (n : LNode) (root : LNode)
    (hroot : getNode st 0 = some root) (hk : k ≠ 0) :
    getNode (rootAppend st k n) 0 = some { root with children := root.children ++ [k] } ∧
    getNode (rootAppend st k n) k = some { n with parent := some 0 } := by
  unfold rootAppend
  rw [hroot]
  dsimp only
  constructor
  · rw [getNode_writeNode, if_pos rfl]
  · rw [getNode_writeNode, if_neg hk, getNode_writeNode, if_pos rfl]

theorem rootClear_getRoot (st : EditorState) (root : LNode)
    (hroot : getNode st 0 = some root) :
    getNode (rootClear st) 0 = some { root with children := [] } ∧
    (rootClear st).nextKey = st.nextKey ∧ (rootClear st).sel = st.sel := by
  unfold rootClear
  rw [hroot]
  dsimp only
  refine ⟨?_, rfl, rfl⟩
  rw [getNode_writeNode, if_pos rfl]

theorem shouldSelectParagraph_sel (env : EditorEnv) (st st' : EditorState)
    (h : st'.sel = st.sel) : shouldSelectParagraph env st' = shouldSelectParagraph env st := by
  unfold shouldSelectParagraph
  rw [h]

/-- What initParagraph does to a state whose root resolves: the root
gains the fresh paragraph as one more child, the paragraph is stored
under the fresh key with the root as parent, and the selection collapses
into the paragraph exactly when shouldSelectParagraph holds of the
pre-state. -/
theorem initParagraph_after (env : EditorEnv) (st : EditorState) (root : LNode)
    (hroot : getNode st 0 = some root) (hnk : st.nextKey ≠ 0) :
    (getNode (initParagraph env st) 0).map LNode.children
        = some (root.children ++ [st.nextKey]) ∧
    (getNode (initParagraph env st) st.nextKey).map LNode.kind = some NodeKind.paragraphK ∧
    (initParagraph env st).sel =
      (if shouldSelectParagraph env st then some (collapsedElementSel st.nextKey 0)
       else st.sel) := by
  unfold initParagraph
  dsimp only
  obtain ⟨h0, hk⟩ := rootAppend_nodes { st with nextKey := st.nextKey + 1 } st.nextKey
    newParagraphNode root hroot hnk
  have hsel1 : (rootAppend { st with nextKey := st.nextKey + 1 } st.nextKey
      newParagraphNode).sel = st.sel := rootAppend_sel _ _ _
  rw [shouldSelectParagraph_sel env st _ hsel1]
  split
  · exact ⟨by rw [getNode_setSel, h0, Option.map_some'],
           by rw [getNode_setSel, hk, Option.map_some']; rfl, rfl⟩
  · exact ⟨by rw [h0, Option.map_some'], by rw [hk, Option.map_some']; rfl, hsel1⟩

/-- Claim C8: clearEditor empties the root and re-seeds it: whatever
the prior tree shape, after the update commits the root has exactly one
child, a paragraph node, and the onUpdate completion callback is
invoked after commit exactly when one was supplied. -/
theorem clearEditor_spec (env : EditorEnv) (st : EditorState) (root : LNode) (hasCb : Bool)
    (hroot : getNode st 0 = some root) (hnk : st.nextKey ≠ 0) :
    ∃ st', clearEditor env st hasCb = some (st', hasCb) ∧
      (getNode st' 0).map LNode.children = some [st.nextKey] ∧
      (getNode st' st.nextKey).map LNode.kind = some NodeKind.paragraphK := by
  obtain ⟨hc0, hck, _⟩ := rootClear_getRoot st root hroot
  have hnk1 : (rootClear st).nextKey ≠ 0 := by rw [hck]; exact hnk
  obtain ⟨h1, h2, _⟩ := initParagraph_after env (rootClear st) { root with children := [] }
    hc0 hnk1
  refine ⟨initParagraph env (rootClear st), ?_, ?_, ?_⟩
  · unfold clearEditor
    rw [hroot]
  · rw [hck] at h1
    simpa using h1
  · rw [hck] at h2
    exact h2

/-- Root-only fixture for the initialisation claims. -/
def exRootOnlySt : EditorState :=
  { nodes := [(0, { kind := NodeKind.rootK })], sel := none, nextKey := 1 }

/-- Host environment whose active element is the editor root. -/
def exFocusedEnv : EditorEnv := { activeElement := some 7, rootElement := some 7 }

/-- Witness for claim C8: clearing the three-node paragraph document. -/
theorem clearEditor_spec_witness :
    ∃ st', clearEditor exFocusedEnv (exParaSt 0 0) true = some (st', true) ∧
      (getNode st' 0).map LNode.children = some [(exParaSt 0 0).nextKey] ∧
      (getNode st' (exParaSt 0 0).nextKey).map LNode.kind = some NodeKind.paragraphK :=
  clearEditor_spec exFocusedEnv (exParaSt 0 0) exRoot true (by decide) (by decide)

/-- The source condition for auto-selecting the seed paragraph, spelled
out: a selection already exists, or the active element is non-null and
is the editor's root element. -/
theorem shouldSelectParagraph_iff (env : EditorEnv) (st : EditorState) :
    shouldSelectParagraph env st = true ↔
      st.sel ≠ none ∨ (env.activeElement ≠ none ∧ env.activeElement = env.rootElement) := by
  unfold shouldSelectParagraph
  cases ha : env.activeElement with
  | none => simp [Option.isSome_iff_ne_none]
  | some a =>
    simp only [Bool.or_eq_true, Option.isSome_iff_ne_none, decide_eq_true_eq,
      ne_eq, reduceCtorEq, not_false_eq_true, true_and]
    constructor
    · rintro (h | h)
      · exact Or.inl h
      · exact Or.inr h.symm
    · rintro (h | h)
      · exact Or.inl h
      · exact Or.inr h.symm

/-- Claim C9: initEditor is a no-op whenever the root already has a
first child; otherwise it appends one seed paragraph under the root and
places a collapsed selection inside it exactly when a selection already
existed or the host editing surface is the active focus target. -/
theorem initEditor_spec (env : EditorEnv) (st : EditorState) (root : LNode)
    (hroot : getNode st 0 = some root) (hnk : st.nextKey ≠ 0) :
    (root.children ≠ [] → initEditor env st = some st) ∧
    (root.children = [] →
      ∃ st', initEditor env st = some st' ∧
        (getNode st' 0).map LNode.children = some [st.nextKey] ∧
        (getNode st' st.nextKey).map LNode.kind = some NodeKind.paragraphK ∧
        st'.sel = (if shouldSelectParagraph env st then some (collapsedElementSel st.nextKey 0)
                   else st.sel) ∧
        (shouldSelectParagraph env st = true ↔
          st.sel ≠ none ∨ (env.activeElement ≠ none ∧ env.activeElement = env.rootElement))) := by
  constructor
  · intro hne
    unfold initEditor
    rw [hroot]
    dsimp only
    cases hch : root.children with
    | nil => exact absurd hch hne
    | cons a t => rfl
  · intro hch
    obtain ⟨h1, h2, h3⟩ := initParagraph_after env st root hroot hnk
    refine ⟨initParagraph env st, ?_, ?_, ?_, h3, shouldSelectParagraph_iff env st⟩
    · unfold initEditor
      rw [hroot]
      dsimp only
      rw [hch]
      rfl
    · rw [hch] at h1
      simpa using h1
    · exact h2

/-- Witness for claim C9 in its seeding branch: the root-only document
with the editing surface focused. -/
theorem initEditor_spec_witness :
    ((({ kind := NodeKind.rootK } : LNode).children ≠ [] →
      initEditor exFocusedEnv exRootOnlySt = some exRootOnlySt) ∧
    (({ kind := NodeKind.rootK } : LNode).children = [] →
      ∃ st', initEditor exFocusedEnv exRootOnlySt = some st' ∧
        (getNode st' 0).map LNode.children = some [exRootOnlySt.nextKey] ∧
        (getNode st' exRootOnlySt.nextKey).map LNode.kind = some NodeKind.paragraphK ∧
        st'.sel = (if shouldSelectParagraph exFocusedEnv exRootOnlySt
                   then some (collapsedElementSel exRootOnlySt.nextKey 0)
                   else exRootOnlySt.sel) ∧
        (shouldSelectParagraph exFocusedEnv exRootOnlySt = true ↔
          exRootOnlySt.sel ≠ none ∨
            (exFocusedEnv.activeElement ≠ none ∧
              exFocusedEnv.activeElement = exFocusedEnv.rootElement)))) :=
  initEditor_spec exFocusedEnv exRootOnlySt { kind := NodeKind.rootK } (by decide) (by decide)

end RichText
